import Mathlib

/-!
Verification of the spectrogram-generation pipeline (`gen_spectrograms.ipynb`).

The development shallowly embeds the four functions of the notebook:

* `save_spectrogram_image` — frequency-bin arithmetic (`f_step`, `min_bin`,
  `max_bin`), the frequency crop of the STFT matrix (`croppedBins`), and the
  figure-size / DPI arithmetic used when the raster is persisted;
* `get_all_wavfiles` — the recursive directory walk with the `.wav` filter;
* `create_storage_for_images` — the destructive reset of an image directory;
* `generate_training_and_testing_datasets` — the per-class train/test split
  with its `np.round`-based test count (round half to even).

Numeric code is embedded over `ℚ` (exact arithmetic in place of IEEE floats),
paths and file names over `List Char` / `String`, and the filesystem as
explicit state (association lists, trees).
-/

namespace Spectro

/-- Python `int()` applied to a rational: truncation toward zero. -/
def pyInt (q : ℚ) : ℤ := q.num.tdiv q.den

/-- `f_step = sampling_rate / n_fft` from `save_spectrogram_image`. -/
def f_step (sampling_rate n_fft : ℕ) : ℚ := (sampling_rate : ℚ) / (n_fft : ℚ)

/-- `min_bin = int(min_freq / f_step)` from `save_spectrogram_image`. -/
def min_bin (sampling_rate n_fft : ℕ) (min_freq : ℚ) : ℤ :=
  pyInt (min_freq / f_step sampling_rate n_fft)

/-- `max_bin = int(max_freq / f_step)` from `save_spectrogram_image`. -/
def max_bin (sampling_rate n_fft : ℕ) (max_freq : ℚ) : ℤ :=
  pyInt (max_freq / f_step sampling_rate n_fft)

/-- Number of frequency rows of `librosa.stft(y, n_fft=n_fft)`: `n_fft // 2 + 1`. -/
def stftBins (n_fft : ℕ) : ℕ := n_fft / 2 + 1

/-- Python slice `l[a:b]` for nonnegative bounds `a`, `b`. -/
def pySlice (l : List α) (a b : ℕ) : List α := (l.drop a).take (b - a)

/-- The frequency-row indices of the STFT matrix kept by the crop
`Y = Y[min_bin:max_bin, :]` in `save_spectrogram_image`. -/
def croppedBins (sampling_rate n_fft : ℕ) (min_freq max_freq : ℚ) : List ℕ :=
  pySlice (List.range (stftBins n_fft))
    (min_bin sampling_rate n_fft min_freq).toNat
    (max_bin sampling_rate n_fft max_freq).toNat

/-- The transform step of `save_spectrogram_image` fails (the spec's
`InvalidRangeError`) exactly when the cropped matrix is empty: the notebook's
`ref=np.max` reduction in `librosa.amplitude_to_db` raises on a zero-size
array. -/
def transform_fails (sampling_rate n_fft : ℕ) (min_freq max_freq : ℚ) : Prop :=
  croppedBins sampling_rate n_fft min_freq max_freq = []

instance (sampling_rate n_fft : ℕ) (min_freq max_freq : ℚ) :
    Decidable (transform_fails sampling_rate n_fft min_freq max_freq) :=
  inferInstanceAs (Decidable (croppedBins sampling_rate n_fft min_freq max_freq = []))

/-- `figsize=(img_size[0] / dpi, img_size[1] / dpi)` from the
`plt.figure(..., figsize=..., dpi=dpi)` call in `save_spectrogram_image`. -/
def figsize (img_size : ℕ × ℕ) (dpi : ℚ) : ℚ × ℚ :=
  ((img_size.1 : ℚ) / dpi, (img_size.2 : ℚ) / dpi)

/-- Pixel dimensions of a raster persisted from a figure of physical size
`size` (inches) at density `dpi`: each physical extent times the density. -/
def rasterPixels (size : ℚ × ℚ) (dpi : ℚ) : ℚ × ℚ := (size.1 * dpi, size.2 * dpi)

/-- Pixel dimensions of the image persisted by `save_spectrogram_image` for a
given `img_size` and `dpi`: the figure is created with
`figsize=(img_size[0]/dpi, img_size[1]/dpi)` at density `dpi` and saved at the
figure's own density. -/
def save_spectrogram_image_pixels (img_size : ℕ × ℕ) (dpi : ℚ) : ℚ × ℚ :=
  rasterPixels (figsize img_size dpi) dpi

/-- A fragment of the filesystem: an association list from a directory path to
the list of file names it holds. -/
abbrev FileSys := List (String × List String)

/-- `os.path.exists(p)` over a `FileSys`. -/
def path_exists (fs : FileSys) (p : String) : Bool := (fs.lookup p).isSome

/-- `shutil.rmtree(p)`: the directory (with its contents) is removed. -/
def rmtree (fs : FileSys) (p : String) : FileSys := fs.filter (fun e => e.1 != p)

/-- `os.makedirs(p)`: the directory now exists and is empty. -/
def makedirs (fs : FileSys) (p : String) : FileSys := (p, []) :: fs

/-- `create_storage_for_images`: if the directory exists it is recursively
deleted, then it is (re)created empty. -/
def create_storage_for_images (fs : FileSys) (p : String) : FileSys :=
  makedirs (if path_exists fs p then rmtree fs p else fs) p

/-- Creating a file `name` inside directory `p` (used to model files being
added between two calls of `create_storage_for_images`). -/
def write_file (fs : FileSys) (p : String) (name : String) : FileSys :=
  fs.map (fun e => if e.1 = p then (e.1, name :: e.2) else e)

/-- `np.round` on a rational: round to nearest, ties to even. -/
def roundHalfEven (q : ℚ) : ℤ :=
  if q - ⌊q⌋ < 1/2 then ⌊q⌋
  else if 1/2 < q - ⌊q⌋ then ⌊q⌋ + 1
  else if ⌊q⌋ % 2 = 0 then ⌊q⌋ else ⌊q⌋ + 1

/-- `test_counter = np.round(counter_per_species * (1 - train_test_ratio))`
from `generate_training_and_testing_datasets`, for one class of `n` files. -/
def test_counter (n : ℕ) (train_test_ratio : ℚ) : ℤ :=
  roundHalfEven ((n : ℚ) * (1 - train_test_ratio))

/-- Observable per-class state of the split: the file names remaining in the
source class directory, and the destination class directory (`none` when it
does not exist, otherwise its file names). -/
structure ClassState where
  src : List String
  dst : Option (List String)
deriving DecidableEq

/-- The file names moved for one class: the loop
`for j in range(int(test_counter[i])): shutil.move(...)` moves `files[j]` for
`j < int(test_counter[i])`, i.e. the first `test_counter` entries of the
shuffled listing. -/
def moved_files (train_test_ratio : ℚ) (shuffled : List String) : List String :=
  shuffled.take (test_counter shuffled.length train_test_ratio).toNat

/-- One iteration of the transfer loop of
`generate_training_and_testing_datasets`, for a single class: the destination
class directory is created if absent (`os.makedirs`), the shuffled listing's
first `test_counter` names are moved from the source directory into it.
`shuffled` is the (already shuffled) listing of the source class directory;
its length is the class's file count, unchanged since the counting loop. -/
def move_class_files (train_test_ratio : ℚ) (shuffled : List String)
    (dst0 : Option (List String)) : ClassState :=
  { src := shuffled.drop (test_counter shuffled.length train_test_ratio).toNat
    dst := some (dst0.getD [] ++ moved_files train_test_ratio shuffled) }

/-- A directory tree: named files and named directories with children. -/
inductive FTree where
  | file (name : List Char)
  | dir (name : List Char) (children : List FTree)

/-- `os.path.join(root, name)` with the `/` separator. -/
def pathJoin (root name : List Char) : List Char := root ++ '/' :: name

/-- The `".wav"` extension. -/
def wavExt : List Char := ['.', 'w', 'a', 'v']

/-- `s.endswith(suffix)`. -/
def endsWith (s suffix : List Char) : Bool := decide (suffix <:+ s)

/-- The file paths produced by `os.walk(root_path)` over the entries of the
root directory: every file, at any depth, as `os.path.join(root, ...)`. -/
def walkFiles : List Char → List FTree → List (List Char)
  | _, [] => []
  | root, FTree.file n :: ts => pathJoin root n :: walkFiles root ts
  | root, FTree.dir n cs :: ts => walkFiles (pathJoin root n) cs ++ walkFiles root ts

/-- `get_all_wavfiles(root_path)`: the walked file paths `path` with
`path.endswith(".wav")`. -/
def get_all_wavfiles (root : List Char) (entries : List FTree) : List (List Char) :=
  (walkFiles root entries).filter (fun p => endsWith p wavExt)

/-- Written from the spec's words for the refinement claim about
`get_all_wavfiles`: the file paths, discovered recursively, whose NAME ends in
`".wav"`. -/
def specWavFiles : List Char → List FTree → List (List Char)
  | _, [] => []
  | root, FTree.file n :: ts =>
      (if endsWith n wavExt then [pathJoin root n] else []) ++ specWavFiles root ts
  | root, FTree.dir n cs :: ts =>
      specWavFiles (pathJoin root n) cs ++ specWavFiles root ts

/-- The clip paths skipped by the defensive
`if not clip_path.endswith(".wav"): continue` branch of the top-level render
loop, which iterates over `get_all_wavfiles`. -/
def render_loop_skipped (root : List Char) (entries : List FTree) : List (List Char) :=
  (get_all_wavfiles root entries).filter (fun p => ! endsWith p wavExt)

/-- A concrete class directory listing of ten files. -/
def demo10 : List String := ["0", "1", "2", "3", "4", "5", "6", "7", "8", "9"]

theorem pySlice_eq_nil_iff (l : List α) (a b : ℕ) :
    pySlice l a b = [] ↔ min b l.length ≤ a := by
  simp only [pySlice, List.take_eq_nil_iff, List.drop_eq_nil_iff, List.length_drop]
  omega

theorem drop_range' (n a s : ℕ) :
    (List.range' s n).drop a = List.range' (s + a) (n - a) := by
  induction a generalizing s n with
  | zero => simp
  | succ a ih =>
    cases n with
    | zero => simp
    | succ n =>
      rw [List.range'_succ, List.drop_succ_cons, ih]
      congr 1 <;> omega

theorem take_range' (n k s : ℕ) :
    (List.range' s n).take k = List.range' s (min k n) := by
  induction k generalizing s n with
  | zero => simp
  | succ k ih =>
    cases n with
    | zero => simp
    | succ n =>
      rw [List.range'_succ, List.take_succ_cons, ih]
      rw [show min (k + 1) (n + 1) = min k n + 1 by omega, List.range'_succ]

theorem filter_range' (a b : ℕ) : ∀ (n s : ℕ),
    (List.range' s n).filter (fun i => decide (a ≤ i ∧ i < b))
      = List.range' (max s a) (min b (s + n) - max s a)
  | 0, s => by
    have h : min b (s + 0) - max s a = 0 := by omega
    simp [h]
  | n + 1, s => by
    rw [List.range'_succ, List.filter_cons]
    rcases Nat.lt_or_ge s a with hsa | hsa
    · rw [if_neg (by simp only [decide_eq_true_eq]; omega), filter_range' a b n (s + 1)]
      congr 1 <;> omega
    · rcases Nat.lt_or_ge s b with hsb | hsb
      · rw [if_pos (by simp only [decide_eq_true_eq]; exact ⟨hsa, hsb⟩),
          filter_range' a b n (s + 1)]
        have hmax1 : max (s + 1) a = s + 1 := by omega
        have hmax0 : max s a = s := by omega
        rw [hmax1, hmax0,
          show min b (s + (n + 1)) - s = (min b (s + 1 + n) - (s + 1)) + 1 by omega,
          List.range'_succ]
      · rw [if_neg (by simp only [decide_eq_true_eq]; omega), filter_range' a b n (s + 1)]
        rw [show min b (s + 1 + n) - max (s + 1) a = 0 by omega,
          show min b (s + (n + 1)) - max s a = 0 by omega]
        rfl

theorem pySlice_range_eq_filter (n a b : ℕ) :
    pySlice (List.range n) a b
      = (List.range n).filter (fun i => decide (a ≤ i ∧ i < b)) := by
  rw [List.range_eq_range']
  unfold pySlice
  rw [drop_range' n a 0, take_range' (n - a) (b - a) (0 + a), filter_range' a b n 0]
  congr 1 <;> omega

theorem f_step_nonneg (sampling_rate n_fft : ℕ) : 0 ≤ f_step sampling_rate n_fft :=
  div_nonneg (Nat.cast_nonneg _) (Nat.cast_nonneg _)

theorem pyInt_eq_floor (q : ℚ) (h : 0 ≤ q) : pyInt q = ⌊q⌋ := by
  unfold pyInt
  rw [Int.tdiv_eq_ediv (Rat.num_nonneg.mpr h) (Int.natCast_nonneg _), Rat.floor_def]

theorem min_bin_eq_floor (sampling_rate n_fft : ℕ) (min_freq : ℚ) (h : 0 ≤ min_freq) :
    min_bin sampling_rate n_fft min_freq = ⌊min_freq / f_step sampling_rate n_fft⌋ := by
  unfold min_bin
  exact pyInt_eq_floor _ (div_nonneg h (f_step_nonneg sampling_rate n_fft))

theorem min_bin_nonneg (sampling_rate n_fft : ℕ) (min_freq : ℚ) (h : 0 ≤ min_freq) :
    0 ≤ min_bin sampling_rate n_fft min_freq := by
  rw [min_bin_eq_floor sampling_rate n_fft min_freq h]
  exact Int.floor_nonneg.mpr (div_nonneg h (f_step_nonneg sampling_rate n_fft))

theorem max_bin_eq_min_bin (sampling_rate n_fft : ℕ) (freq : ℚ) :
    max_bin sampling_rate n_fft freq = min_bin sampling_rate n_fft freq := rfl

/-- C6: for nonnegative `min_freq` and `max_freq`, the STFT matrix rows kept by
the crop `Y[min_bin:max_bin, :]` in `save_spectrogram_image` (applied before
the magnitude and decibel mapping) are exactly those whose bin index lies in
the half-open range `[⌊min_freq/f_step⌋, ⌊max_freq/f_step⌋)`, with
`f_step = sampling_rate/n_fft`. -/
theorem croppedBins_eq_halfopen (sampling_rate n_fft : ℕ) (min_freq max_freq : ℚ)
    (hmin : 0 ≤ min_freq) (hmax : 0 ≤ max_freq) :
    croppedBins sampling_rate n_fft min_freq max_freq
      = (List.range (stftBins n_fft)).filter
          (fun i : ℕ => decide (⌊min_freq / f_step sampling_rate n_fft⌋ ≤ (i : ℤ)
            ∧ (i : ℤ) < ⌊max_freq / f_step sampling_rate n_fft⌋)) := by
  have e1 := min_bin_eq_floor sampling_rate n_fft min_freq hmin
  have e2 : max_bin sampling_rate n_fft max_freq = ⌊max_freq / f_step sampling_rate n_fft⌋ := by
    rw [max_bin_eq_min_bin]; exact min_bin_eq_floor sampling_rate n_fft max_freq hmax
  have p1 := min_bin_nonneg sampling_rate n_fft min_freq hmin
  have p2 : 0 ≤ max_bin sampling_rate n_fft max_freq := by
    rw [max_bin_eq_min_bin]; exact min_bin_nonneg sampling_rate n_fft max_freq hmax
  unfold croppedBins
  rw [pySlice_range_eq_filter]
  apply List.filter_congr
  intro i _
  rw [← e1, ← e2]
  simp only [decide_eq_decide]
  omega

/-- C6 witness: the theorem at the notebook's configured values. -/
theorem croppedBins_eq_halfopen_witness :
    croppedBins 48000 512 3000 22000
      = (List.range (stftBins 512)).filter
          (fun i : ℕ => decide (⌊(3000 : ℚ) / f_step 48000 512⌋ ≤ (i : ℤ)
            ∧ (i : ℤ) < ⌊(22000 : ℚ) / f_step 48000 512⌋)) :=
  croppedBins_eq_halfopen 48000 512 3000 22000 (by norm_num) (by norm_num)

/-- C1 as stated is false: with `sampling_rate = 48000`, `n_fft = 512`,
`min_freq = 30000`, `max_freq = 40000` (both above Nyquist) we get
`min_bin = 320 < 426 = max_bin`, yet the crop `Y[320:426, :]` of the 257-row
STFT matrix is empty, so the transform fails. -/
theorem transform_fails_spec_counterexample :
    transform_fails 48000 512 30000 40000 ∧
      min_bin 48000 512 30000 < max_bin 48000 512 40000 := by
  have hf : f_step 48000 512 = 375 / 4 := by norm_num [f_step]
  have h1 : min_bin 48000 512 30000 = 320 := by
    rw [min_bin_eq_floor 48000 512 30000 (by norm_num), hf, Int.floor_eq_iff]
    constructor <;> norm_num
  have h2 : max_bin 48000 512 40000 = 426 := by
    rw [max_bin_eq_min_bin, min_bin_eq_floor 48000 512 40000 (by norm_num), hf,
      Int.floor_eq_iff]
    constructor <;> norm_num
  refine ⟨?_, by rw [h1, h2]; norm_num⟩
  unfold transform_fails croppedBins
  rw [h1, h2, pySlice_eq_nil_iff, List.length_range]
  decide

/-- C1 amended: for nonnegative frequency bounds, the transform fails if and
only if the cropped bin range is empty, i.e. iff `max_bin ≤ min_bin` OR the
STFT matrix's row count `n_fft/2 + 1` is at most `min_bin`; when
`min_bin < max_bin` and `min_bin < n_fft/2 + 1` it succeeds. -/
theorem transform_fails_iff (sampling_rate n_fft : ℕ) (min_freq max_freq : ℚ)
    (hmin : 0 ≤ min_freq) (hmax : 0 ≤ max_freq) :
    transform_fails sampling_rate n_fft min_freq max_freq ↔
      (max_bin sampling_rate n_fft max_freq ≤ min_bin sampling_rate n_fft min_freq
        ∨ (stftBins n_fft : ℤ) ≤ min_bin sampling_rate n_fft min_freq) := by
  have p1 := min_bin_nonneg sampling_rate n_fft min_freq hmin
  have p2 : 0 ≤ max_bin sampling_rate n_fft max_freq := by
    rw [max_bin_eq_min_bin]; exact min_bin_nonneg sampling_rate n_fft max_freq hmax
  unfold transform_fails croppedBins
  rw [pySlice_eq_nil_iff, List.length_range]
  omega

/-- C1 witness: at the notebook's configured values the bin range is
nondegenerate and within the STFT rows, so the transform succeeds. -/
theorem transform_fails_iff_witness : ¬ transform_fails 48000 512 3000 22000 := by
  have hf : f_step 48000 512 = 375 / 4 := by norm_num [f_step]
  have h1 : min_bin 48000 512 3000 = 32 := by
    rw [min_bin_eq_floor 48000 512 3000 (by norm_num), hf, Int.floor_eq_iff]
    constructor <;> norm_num
  have h2 : max_bin 48000 512 22000 = 234 := by
    rw [max_bin_eq_min_bin, min_bin_eq_floor 48000 512 22000 (by norm_num), hf,
      Int.floor_eq_iff]
    constructor <;> norm_num
  intro hfail
  have h := (transform_fails_iff 48000 512 3000 22000 (by norm_num) (by norm_num)).mp hfail
  rw [h1, h2, show stftBins 512 = 257 from rfl] at h
  omega

/-- C4: for every positive `dpi` and target pixel size, the raster persisted by
`save_spectrogram_image` has pixel dimensions exactly `img_size`: the figure's
physical size is `(W/dpi, H/dpi)` at density `dpi`, so the emitted pixel
dimensions are `(W, H)` independent of `dpi`. -/
theorem save_pixels_eq_img_size (img_size : ℕ × ℕ) (dpi : ℚ) (hdpi : 0 < dpi) :
    save_spectrogram_image_pixels img_size dpi
      = ((img_size.1 : ℚ), (img_size.2 : ℚ)) := by
  have h : dpi ≠ 0 := ne_of_gt hdpi
  unfold save_spectrogram_image_pixels rasterPixels figsize
  rw [div_mul_cancel₀ _ h, div_mul_cancel₀ _ h]

/-- C4 witness: two runs differing only in `dpi` (96 and 144) with the
notebook's `img_size` both yield a 413 by 202 pixel raster. -/
theorem save_pixels_eq_img_size_witness :
    (0 : ℚ) < 96 ∧ (0 : ℚ) < 144 ∧
    save_spectrogram_image_pixels (413, 202) 96 = (((413 : ℕ) : ℚ), ((202 : ℕ) : ℚ)) ∧
    save_spectrogram_image_pixels (413, 202) 144 = (((413 : ℕ) : ℚ), ((202 : ℕ) : ℚ)) :=
  ⟨by norm_num, by norm_num,
    save_pixels_eq_img_size (413, 202) 96 (by norm_num),
    save_pixels_eq_img_size (413, 202) 144 (by norm_num)⟩

/-- C5: `create_storage_for_images` always leaves the given directory existing
and empty, whatever its prior state (absent, empty, or with contents), and a
second call still yields an existing empty directory even when files were
written in between; prior contents are unconditionally deleted. -/
theorem create_storage_idempotent (fs : FileSys) (p : String) (adds : List String) :
    (create_storage_for_images fs p).lookup p = some [] ∧
    ((create_storage_for_images
        (adds.foldl (fun s n => write_file s p n) (create_storage_for_images fs p)) p).lookup p)
      = some [] := by
  constructor <;>
    · unfold create_storage_for_images makedirs
      simp [List.lookup]

theorem roundHalfEven_nonneg (q : ℚ) (h : 0 ≤ q) : 0 ≤ roundHalfEven q := by
  have hf : 0 ≤ ⌊q⌋ := Int.floor_nonneg.mpr h
  unfold roundHalfEven
  split
  · exact hf
  · split
    · omega
    · split <;> omega

theorem roundHalfEven_le (q : ℚ) (n : ℤ) (h : q ≤ (n : ℚ)) : roundHalfEven q ≤ n := by
  have hfn : ⌊q⌋ ≤ n := by
    have h2 := Int.floor_le_floor h
    rwa [Int.floor_intCast] at h2
  unfold roundHalfEven
  by_cases h1 : q - ⌊q⌋ < 1 / 2
  · rw [if_pos h1]; exact hfn
  · have hlt : ⌊q⌋ < n := by
      have h2 : (1 : ℚ) / 2 ≤ q - ⌊q⌋ := not_lt.mp h1
      have h3 : (⌊q⌋ : ℚ) < (n : ℚ) := by linarith
      exact_mod_cast h3
    rw [if_neg h1]
    split
    · omega
    · split <;> omega

theorem roundHalfEven_intCast (z : ℤ) : roundHalfEven (z : ℚ) = z := by
  unfold roundHalfEven
  rw [Int.floor_intCast, if_pos (by norm_num)]

theorem test_counter_toNat_le (n : ℕ) (r : ℚ) (h0 : 0 ≤ r) (h1 : r ≤ 1) :
    (test_counter n r).toNat ≤ n := by
  have hmul : (n : ℚ) * (1 - r) ≤ ((n : ℤ) : ℚ) := by
    have h2 : (n : ℚ) * (1 - r) ≤ (n : ℚ) * 1 :=
      mul_le_mul_of_nonneg_left (by linarith) (Nat.cast_nonneg n)
    push_cast
    linarith
  have h3 := roundHalfEven_le ((n : ℚ) * (1 - r)) (n : ℤ) hmul
  unfold test_counter
  omega

/-- C10: for every ratio in `[0,1]` the per-class test count
`int(np.round(N * (1 - ratio)))` computed by
`generate_training_and_testing_datasets` is at most the class size `N`, so
every index `j` used by the file-moving loop is within the bounds of the
shuffled array of `N` file names. -/
theorem move_loop_index_in_bounds (r : ℚ) (shuffled : List String)
    (h0 : 0 ≤ r) (h1 : r ≤ 1) :
    (test_counter shuffled.length r).toNat ≤ shuffled.length ∧
      ∀ j : ℕ, j < (test_counter shuffled.length r).toNat → j < shuffled.length := by
  have h := test_counter_toNat_le shuffled.length r h0 h1
  exact ⟨h, fun j hj => lt_of_lt_of_le hj h⟩

/-- C10 witness: the bound at a ten-file class and the notebook's 0.7 ratio. -/
theorem move_loop_index_in_bounds_witness :
    (0 : ℚ) ≤ 7 / 10 ∧ (7 : ℚ) / 10 ≤ 1 ∧
      ((test_counter demo10.length (7 / 10)).toNat ≤ demo10.length ∧
        ∀ j : ℕ, j < (test_counter demo10.length (7 / 10)).toNat → j < demo10.length) :=
  ⟨by norm_num, by norm_num,
    move_loop_index_in_bounds (7 / 10) demo10 (by norm_num) (by norm_num)⟩

/-- C2: for a class of `N` files and ratio `r ∈ [0,1]`, the split moves exactly
`round(N * (1 - r))` files (with `np.round`'s round-half-to-even rule) and
leaves `N - round(N * (1 - r))` in the source class directory. -/
theorem move_class_files_count (r : ℚ) (files shuffled : List String)
    (dst0 : Option (List String)) (h0 : 0 ≤ r) (h1 : r ≤ 1)
    (hperm : shuffled.Perm files) :
    (moved_files r shuffled).length
        = (roundHalfEven ((files.length : ℚ) * (1 - r))).toNat ∧
      (move_class_files r shuffled dst0).src.length
        = files.length - (roundHalfEven ((files.length : ℚ) * (1 - r))).toNat := by
  have hlen : shuffled.length = files.length := hperm.length_eq
  have hle := test_counter_toNat_le shuffled.length r h0 h1
  unfold move_class_files moved_files
  simp only [List.length_take, List.length_drop]
  unfold test_counter
  unfold test_counter at hle
  rw [hlen] at hle ⊢
  omega

/-- C2 witness: a class of `N = 10` files with ratio `0.7` has exactly 3 files
moved and 7 remaining. -/
theorem move_class_files_count_witness :
    (moved_files (7 / 10) demo10).length = 3 ∧
      (move_class_files (7 / 10) demo10 none).src.length = 7 := by
  have h := move_class_files_count (7 / 10) demo10 demo10 none (by norm_num) (by norm_num)
    (List.Perm.refl demo10)
  have hlen : demo10.length = 10 := rfl
  have h3 : roundHalfEven ((demo10.length : ℚ) * (1 - 7 / 10)) = 3 := by
    rw [show ((demo10.length : ℚ) * (1 - 7 / 10)) = ((3 : ℤ) : ℚ) by rw [hlen]; norm_num]
    exact roundHalfEven_intCast 3
  rw [h.1, h.2, h3, hlen]
  constructor <;> rfl

/-- C3: the split neither creates nor loses files: each moved file is in the
destination class directory and no longer in the source afterwards (move
semantics), and the source plus destination file counts equal the class's
original count. The destination class directory starts absent (`none`). -/
theorem move_class_files_conservation (r : ℚ) (files shuffled : List String)
    (hperm : shuffled.Perm files) (hnd : files.Nodup) :
    (∀ f ∈ moved_files r shuffled,
        f ∈ (move_class_files r shuffled none).dst.getD [] ∧
          f ∉ (move_class_files r shuffled none).src) ∧
      (move_class_files r shuffled none).src.length
          + ((move_class_files r shuffled none).dst.getD []).length = files.length := by
  have hnd' : shuffled.Nodup := hperm.nodup_iff.mpr hnd
  have hdisj := List.disjoint_take_drop hnd'
    (le_refl (test_counter shuffled.length r).toNat)
  constructor
  · intro f hf
    constructor
    · simpa [move_class_files] using hf
    · intro hcontra
      exact hdisj (by simpa [moved_files] using hf)
        (by simpa [move_class_files] using hcontra)
  · simp only [move_class_files, moved_files, Option.getD_some, Option.getD_none,
      List.nil_append, List.length_append, List.length_take, List.length_drop]
    rw [← hperm.length_eq]
    omega

/-- C3 witness: a two-file class with ratio one half. -/
theorem move_class_files_conservation_witness :
    (∀ f ∈ moved_files (1 / 2) ["b", "a"],
        f ∈ (move_class_files (1 / 2) ["b", "a"] none).dst.getD [] ∧
          f ∉ (move_class_files (1 / 2) ["b", "a"] none).src) ∧
      (move_class_files (1 / 2) ["b", "a"] none).src.length
          + ((move_class_files (1 / 2) ["b", "a"] none).dst.getD []).length
        = (["a", "b"] : List String).length :=
  move_class_files_conservation (1 / 2) ["a", "b"] ["b", "a"] (by decide) (by decide)

/-- C8 as stated is false: for a class with zero files whose destination class
directory does not yet exist, the split is not a no-op — it creates the (empty)
destination directory, an observable state change for that class. -/
theorem empty_class_noop_counterexample :
    move_class_files (7 / 10) [] none ≠ ClassState.mk [] none := by
  intro h
  have h2 := congrArg ClassState.dst h
  simp [move_class_files] at h2

/-- C8 amended: for a class with zero files no file is moved and the source
directory is unchanged; the only effect is that the destination class
directory is created (empty) when absent, and left as is otherwise. -/
theorem move_class_files_empty_class (r : ℚ) (dst0 : Option (List String)) :
    move_class_files r [] dst0 = ClassState.mk [] (some (dst0.getD [])) := by
  unfold move_class_files moved_files
  simp

theorem suffix_pathJoin_iff (root n : List Char) :
    wavExt <:+ (root ++ '/' :: n) ↔ wavExt <:+ n := by
  constructor
  · intro h
    rcases Nat.lt_or_ge n.length 4 with hlen | hlen
    · exfalso
      have hsub : '/' :: n <:+ root ++ '/' :: n := List.suffix_append root ('/' :: n)
      have hle : ('/' :: n).length ≤ wavExt.length := by
        simp only [List.length_cons, wavExt, List.length]
        omega
      have hsw : '/' :: n <:+ wavExt := List.suffix_of_suffix_length_le hsub h hle
      have hm : '/' ∈ wavExt := List.IsSuffix.mem (List.mem_cons_self '/' n) hsw
      exact absurd hm (by decide)
    · rw [List.suffix_iff_eq_drop, show root ++ '/' :: n = (root ++ ['/']) ++ n by simp] at h
      rw [show ((root ++ ['/']) ++ n).length - wavExt.length
            = (root ++ ['/']).length + (n.length - 4) by simp [wavExt]; omega,
        List.drop_append] at h
      rw [h]
      exact List.drop_suffix _ _
  · intro h
    exact h.trans ((List.suffix_cons '/' n).trans (List.suffix_append root ('/' :: n)))

theorem endsWith_pathJoin (root n : List Char) :
    endsWith (pathJoin root n) wavExt = endsWith n wavExt := by
  unfold endsWith pathJoin
  exact decide_eq_decide.mpr (suffix_pathJoin_iff root n)

theorem walkFiles_filter_eq_spec (root : List Char) (entries : List FTree) :
    (walkFiles root entries).filter (fun p => endsWith p wavExt)
      = specWavFiles root entries := by
  induction root, entries using walkFiles.induct with
  | case1 root => simp [walkFiles, specWavFiles]
  | case2 root n ts ih =>
    simp only [walkFiles, specWavFiles, List.filter_cons, endsWith_pathJoin, ih]
    cases h : endsWith n wavExt <;> simp [h]
  | case3 root n cs ts ih1 ih2 =>
    simp only [walkFiles, specWavFiles, List.filter_append, ih1, ih2]

/-- C7: `get_all_wavfiles` yields exactly the recursively discovered file
paths whose name ends in `".wav"` — whatever the traversal order, the yielded
paths are those of the `.wav`-named files; over a tree containing
`a.wav`, `b.txt` and `sub/c.wav` it yields exactly the paths of `a.wav` and
`sub/c.wav`. -/
theorem get_all_wavfiles_spec :
    (∀ (root : List Char) (entries : List FTree),
        get_all_wavfiles root entries = specWavFiles root entries) ∧
      get_all_wavfiles "root".toList
          [FTree.file "a.wav".toList, FTree.file "b.txt".toList,
            FTree.dir "sub".toList [FTree.file "c.wav".toList]]
        = ["root/a.wav".toList, "root/sub/c.wav".toList] := by
  refine ⟨fun root entries => walkFiles_filter_eq_spec root entries, ?_⟩
  unfold get_all_wavfiles
  simp only [walkFiles]
  decide

/-- C9: the defensive `if not clip_path.endswith(".wav"): continue` branch of
the top-level render loop is unreachable: every path yielded by
`get_all_wavfiles` ends with `".wav"`, so the set of skipped clips is always
empty. -/
theorem render_loop_skip_unreachable (root : List Char) (entries : List FTree) :
    render_loop_skipped root entries = [] := by
  unfold render_loop_skipped get_all_wavfiles
  rw [List.filter_filter]
  simp

end Spectro
